import Mathlib

/-!
Shallow embedding of the NFT guest-staking contract
(`src/contracts/nft-simple/src/lib.rs`) and proofs of its specified
properties.

Modelling conventions:
* `AccountId`, `PublicKey`, `TokenId` are strings, as in the source.
* NEAR SDK persistent maps (`LookupMap`, `UnorderedMap`) are modelled as
  functions into `Option`; `HashSet<AccountId>` as `Finset String`.
* Machine integers (`u8`, `u64`, `u128`, `usize`) are modelled as `Nat`;
  every arithmetic operation in the source is guarded so no overflow or
  underflow can occur on the paths modelled (noted inline where relevant).
* A Rust `assert!`/`expect`/`env::panic` aborts the whole call with full
  rollback, so every entry point is a total function returning
  `Except String Contract` (error = abort, state discarded).
* Host-environment inputs (`env::signer_account_pk`,
  `env::predecessor_account_id`, promise results, storage usage) are
  passed as explicit arguments.
-/

abbrev AccountId := String
abbrev PublicKey := String
abbrev TokenId := String

def ON_CREATE_ACCOUNT_CALLBACK_GAS : Nat := 20000000000000
def GAS_FOR_MARKET_CALL : Nat := 25000000000000
def NO_DEPOSIT : Nat := 0
def GUEST_STRING_LENGTH_LIMIT : Nat := 256
def GUEST_MINT_LIMIT : Nat := 3
def MAX_MARKET_DEPOSIT : Nat := 100000000000000000000000
def ACCESS_KEY_ALLOWANCE : Nat := 100000000000000000000000
def SPONSOR_FEE : Nat := 100000000000000000000000

structure Token where
  owner_id : AccountId
  metadata : String
  approved_account_ids : Finset AccountId
deriving DecidableEq

structure Guest where
  account_id : AccountId
  mints : Nat
  balance : Nat
deriving DecidableEq

structure GuestSale where
  public_key : PublicKey
  price : Nat
  deposit : Nat
deriving DecidableEq

structure Contract where
  tokens_per_owner : AccountId → Option (Finset TokenId)
  tokens_by_id : TokenId → Option Token
  owner_id : AccountId
  total_supply : Nat
  extra_storage_in_bytes_per_token : Nat
  guests : PublicKey → Option Guest
  guest_sales : TokenId → Option GuestSale

/-- Pointwise update of a map modelled as a function into `Option`. -/
def upd {V : Type} (m : String → Option V) (k : String) (v : Option V) :
    String → Option V :=
  fun x => if x = k then v else m x

theorem upd_same {V : Type} (m : String → Option V) (k : String) (v : Option V) :
    upd m k v k = v := by simp [upd]

theorem upd_other {V : Type} (m : String → Option V) (k x : String) (v : Option V)
    (h : x ≠ k) : upd m k v x = m x := by simp [upd, h]

/-- Rust `admin_guest(new_mints)` (lib.rs:189-199): resolves the signer key to a
guest, asserts `mints < GUEST_MINT_LIMIT`, adds `new_mints` to the counter,
persists, and returns the updated guest. -/
def admin_guest (self : Contract) (signer_id : PublicKey) (new_mints : Nat) :
    Except String (Guest × Contract) :=
  match self.guests signer_id with
  | none => .error "Not a guest"
  | some guest =>
    if guest.mints < GUEST_MINT_LIMIT then
      let guest1 : Guest := { guest with mints := guest.mints + new_mints }
      .ok (guest1, { self with guests := upd self.guests signer_id (some guest1) })
    else .error "Exceeded guest mint limit"

/-- Modelled from the spec: `internal_add_token_to_owner` lives in the
`internal` module of the crate, which is not among the provided sources;
per §4.3 of the spec the mint workflow "updates the owner index", i.e. adds
the token id to the owner's set in `tokens_per_owner`, creating the set
when the owner has no entry yet. -/
def internal_add_token_to_owner (self : Contract) (owner : AccountId)
    (token_id : TokenId) : Contract :=
  let s := (self.tokens_per_owner owner).getD ∅
  { self with
    tokens_per_owner := upd self.tokens_per_owner owner (some (insert token_id s)) }

/-- Rust `nft_mint_guest` (lib.rs:112-134): bounds-checks id and metadata,
consumes one unit of quota via `admin_guest(1)`, inserts a fresh token
owned by the guest's linked account with an empty approval set, updates
the owner index and increments `total_supply`. -/
def nft_mint_guest (self : Contract) (signer_id : PublicKey)
    (token_id : TokenId) (metadata : String) : Except String Contract :=
  if token_id.utf8ByteSize < GUEST_STRING_LENGTH_LIMIT then
    if metadata.utf8ByteSize < GUEST_STRING_LENGTH_LIMIT then
      match admin_guest self signer_id 1 with
      | .error e => .error e
      | .ok (guest, self1) =>
        let token : Token :=
          { owner_id := guest.account_id, metadata := metadata,
            approved_account_ids := ∅ }
        match self1.tokens_by_id token_id with
        | some _ => .error "Token already exists"
        | none =>
          let self2 :=
            { self1 with tokens_by_id := upd self1.tokens_by_id token_id (some token) }
          let self3 := internal_add_token_to_owner self2 token.owner_id token_id
          .ok { self3 with total_supply := self3.total_supply + 1 }
    else .error "Metadata too long for guest mint"
  else .error "Token ID too long for guest mint"

/-- Rust `nft_add_sale_guest` (lib.rs:136-163): deposit ceiling check,
`admin_guest(0)` authentication, ownership check, single-listing check
(`approved_account_ids.len() == 0`), then approves the market, records a
`GuestSale` and issues the outbound market call (the outbound call carries
no local state change and is not modelled). -/
def nft_add_sale_guest (self : Contract) (signer_id : PublicKey)
    (token_id : TokenId) (price : Nat) (market_id : AccountId)
    (market_deposit : Nat) : Except String Contract :=
  if market_deposit ≤ MAX_MARKET_DEPOSIT then
    match admin_guest self signer_id 0 with
    | .error e => .error e
    | .ok (guest, self1) =>
      match self1.tokens_by_id token_id with
      | none => .error "Token not found"
      | some token =>
        if guest.account_id = token.owner_id then
          if token.approved_account_ids.card = 0 then
            let token1 : Token :=
              { token with
                approved_account_ids := insert market_id token.approved_account_ids }
            let self2 :=
              { self1 with tokens_by_id := upd self1.tokens_by_id token_id (some token1) }
            let sale : GuestSale :=
              { public_key := signer_id, price := price, deposit := market_deposit }
            .ok { self2 with guest_sales := upd self2.guest_sales token_id (some sale) }
          else .error "Can only approve one market at a time as guest"
        else .error "guest is not the token owner"
  else .error "Cannot make market deposits more than MAX_MARKET_DEPOSIT"

/-- Rust `nft_remove_sale_guest` (lib.rs:165-185): `admin_guest(0)`
authentication, ownership check, asserts exactly one approval exists, then
removes `market_id` from the approval set (note: without checking it is
the approved account), deletes the `GuestSale`, and issues the outbound
market call (not modelled). -/
def nft_remove_sale_guest (self : Contract) (signer_id : PublicKey)
    (token_id : TokenId) (market_id : AccountId) : Except String Contract :=
  match admin_guest self signer_id 0 with
  | .error e => .error e
  | .ok (guest, self1) =>
    match self1.tokens_by_id token_id with
    | none => .error "Token not found"
    | some token =>
      if guest.account_id = token.owner_id then
        if token.approved_account_ids.card = 1 then
          let token1 : Token :=
            { token with
              approved_account_ids := token.approved_account_ids.erase market_id }
          let self2 :=
            { self1 with tokens_by_id := upd self1.tokens_by_id token_id (some token1) }
          .ok { self2 with guest_sales := upd self2.guest_sales token_id none }
        else .error "No sale at market"
      else .error "guest is not the token owner"

/-- The composite outbound account-provisioning operation issued by
`upgrade_guest` (lib.rs:215-232): create account, add full-access key, add
scoped access key, transfer `balance - fees`, then invoke the
`on_account_created` callback with the correlation data. -/
structure UpgradeRequest where
  account_id : AccountId
  full_access_key : String
  scoped_access_key : String
  allowance : Nat
  receiver_id : AccountId
  method_names : String
  transfer_amount : Nat
  callback_account_id : AccountId
  callback_public_key : PublicKey
deriving DecidableEq

/-- Rust `upgrade_guest` (lib.rs:202-233): resolves the signer key to a guest,
asserts `balance > SPONSOR_FEE`, and returns the outbound provisioning
request. No contract state is mutated in this phase. -/
def upgrade_guest (self : Contract) (signer_pk : PublicKey)
    (current_account : AccountId) (public_key : String) (access_key : String)
    (method_names : String) : Except String (Contract × UpgradeRequest) :=
  match self.guests signer_pk with
  | none => .error "No guest"
  | some guest =>
    let balance := guest.balance
    let fees := SPONSOR_FEE
    if balance > fees then
      .ok (self,
        { account_id := guest.account_id,
          full_access_key := public_key,
          scoped_access_key := access_key,
          allowance := ACCESS_KEY_ALLOWANCE,
          receiver_id := current_account,
          method_names := method_names,
          transfer_amount := balance - fees,
          callback_account_id := guest.account_id,
          callback_public_key := signer_pk })
    else .error "Not enough to upgrade"

/-- Host promise outcome, as in `near_sdk::PromiseResult`. -/
inductive PromiseResult where
  | NotReady : PromiseResult
  | Successful : List Nat → PromiseResult
  | Failed : PromiseResult
deriving DecidableEq

/-- Rust `is_promise_success` (lib.rs:291-301): asserts exactly one promise
result is present and reports whether it is `Successful`. -/
def is_promise_success (results : List PromiseResult) : Except String Bool :=
  match results with
  | [PromiseResult.Successful _] => .ok true
  | [_] => .ok false
  | _ => .error "Contract expected a result on the callback"

/-- Rust `on_account_created` (lib.rs:236-242): on a successful single outcome
deletes the guest keyed by `public_key` and returns `true`; on a failed
outcome returns `false` leaving the state unchanged. -/
def on_account_created (self : Contract) (results : List PromiseResult)
    (account_id : AccountId) (public_key : PublicKey) :
    Except String (Contract × Bool) :=
  match is_promise_success results with
  | .error e => .error e
  | .ok true => .ok ({ self with guests := upd self.guests public_key none }, true)
  | .ok false => .ok (self, false)

/-- Rust `add_guest` (lib.rs:247-261): owner-only; rejects an account that
already has an owner-index entry or a key that is already a guest;
otherwise registers a fresh guest with zero mints and zero balance.
(The source inserts first and panics if a previous value existed; the
panic rolls the insert back, so check-then-insert is equivalent.) -/
def add_guest (self : Contract) (predecessor : AccountId)
    (account_id : AccountId) (public_key : PublicKey) : Except String Contract :=
  if predecessor = self.owner_id then
    if (self.tokens_per_owner account_id).isSome then
      .error "The account is already registered"
    else if (self.guests public_key).isSome then
      .error "guest account already added"
    else
      .ok { self with
        guests := upd self.guests public_key
          (some { account_id := account_id, mints := 0, balance := 0 }) }
  else .error "must be owner_id"

/-- Rust `remove_guest` (lib.rs:263-269): owner-only; wholesale-deletes the
guest's owner-index entry and the guest record. -/
def remove_guest (self : Contract) (predecessor : AccountId)
    (public_key : PublicKey) : Except String Contract :=
  if predecessor = self.owner_id then
    match self.guests public_key with
    | none => .error "not a guest"
    | some guest =>
      .ok { self with
        tokens_per_owner := upd self.tokens_per_owner guest.account_id none,
        guests := upd self.guests public_key none }
  else .error "must be owner_id"

/-- Rust `get_guest` (lib.rs:273-275): read-only lookup. -/
def get_guest (self : Contract) (public_key : PublicKey) : Except String Guest :=
  match self.guests public_key with
  | none => .error "no guest"
  | some guest => .ok guest

/-- The synthetic worst-case-length identity `"a".repeat(64)` used by the
storage-cost measurement. -/
def tmpAccountId : String := String.mk (List.replicate 64 'a')

/-- Host storage model for the one measurement at initialization:
`entry_cost k` is the byte delta reported by `env::storage_usage()` for
inserting a fresh `tokens_per_owner` entry keyed by `k` (with an empty
set as value). -/
structure StorageEnv where
  entry_cost : AccountId → Nat

/-- Rust `measure_min_token_storage_cost` (lib.rs:92-105): inserts a throwaway
owner-index entry keyed by the synthetic identity, takes the storage byte
delta, adds `tmp.len() - owner_id.len()` (usize subtraction, well-defined
because a valid account id has at most 64 bytes), stores the sum as the
per-token extra-storage constant, and removes the throwaway entry. -/
def measure_min_token_storage_cost (self : Contract) (env : StorageEnv) :
    Contract :=
  let tmp_account_id := tmpAccountId
  let self1 :=
    { self with
      tokens_per_owner := upd self.tokens_per_owner tmp_account_id (some ∅) }
  let tokens_per_owner_entry_in_bytes := env.entry_cost tmp_account_id
  let owner_id_extra_cost_in_bytes :=
    tmp_account_id.utf8ByteSize - self.owner_id.utf8ByteSize
  let self2 :=
    { self1 with
      extra_storage_in_bytes_per_token :=
        tokens_per_owner_entry_in_bytes + owner_id_extra_cost_in_bytes }
  { self2 with
    tokens_per_owner := upd self2.tokens_per_owner tmp_account_id none }

/-- Rust `new` (lib.rs:77-90): fresh empty state followed by the one-time
storage-cost measurement. -/
def Contract.new (owner_id : AccountId) (env : StorageEnv) : Contract :=
  let this : Contract :=
    { tokens_per_owner := fun _ => none,
      tokens_by_id := fun _ => none,
      owner_id := owner_id,
      total_supply := 0,
      extra_storage_in_bytes_per_token := 0,
      guests := fun _ => none,
      guest_sales := fun _ => none }
  measure_min_token_storage_cost this env

/-- One public entry-point call that succeeds (env inputs existential). -/
inductive Step : Contract → Contract → Prop where
  | mint (s s' : Contract) (pk : PublicKey) (tid : TokenId) (md : String) :
      nft_mint_guest s pk tid md = .ok s' → Step s s'
  | addSale (s s' : Contract) (pk : PublicKey) (tid : TokenId) (price : Nat)
      (mid : AccountId) (dep : Nat) :
      nft_add_sale_guest s pk tid price mid dep = .ok s' → Step s s'
  | removeSale (s s' : Contract) (pk : PublicKey) (tid : TokenId) (mid : AccountId) :
      nft_remove_sale_guest s pk tid mid = .ok s' → Step s s'
  | upgrade (s s' : Contract) (pk : PublicKey) (cur : AccountId)
      (k1 k2 mn : String) (r : UpgradeRequest) :
      upgrade_guest s pk cur k1 k2 mn = .ok (s', r) → Step s s'
  | onCreated (s s' : Contract) (results : List PromiseResult)
      (acct : AccountId) (pk : PublicKey) (b : Bool) :
      on_account_created s results acct pk = .ok (s', b) → Step s s'
  | addGuest (s s' : Contract) (pred acct : AccountId) (pk : PublicKey) :
      add_guest s pred acct pk = .ok s' → Step s s'
  | removeGuest (s s' : Contract) (pred : AccountId) (pk : PublicKey) :
      remove_guest s pred pk = .ok s' → Step s s'

/-- States reachable from some freshly initialized contract by successful
public calls. -/
inductive Reachable : Contract → Prop where
  | init (owner : AccountId) (env : StorageEnv) : Reachable (Contract.new owner env)
  | step {s s' : Contract} : Reachable s → Step s s' → Reachable s'

/-! ## Characterization lemmas for the operations -/

theorem admin_guest_ok {s s' : Contract} {pk : PublicKey} {n : Nat} {g' : Guest}
    (h : admin_guest s pk n = .ok (g', s')) :
    ∃ g, s.guests pk = some g ∧ g.mints < GUEST_MINT_LIMIT ∧
      g' = { g with mints := g.mints + n } ∧
      s' = { s with guests := upd s.guests pk (some g') } := by
  unfold admin_guest at h
  cases hg : s.guests pk with
  | none => simp [hg] at h
  | some g =>
    simp only [hg] at h
    by_cases hm : g.mints < GUEST_MINT_LIMIT
    · simp only [if_pos hm, Except.ok.injEq, Prod.mk.injEq] at h
      exact ⟨g, rfl, hm, h.1.symm, by rw [← h.2, ← h.1]⟩
    · simp [if_neg hm] at h

theorem nft_mint_guest_ok {s s' : Contract} {pk : PublicKey} {tid : TokenId}
    {md : String} (h : nft_mint_guest s pk tid md = .ok s') :
    tid.utf8ByteSize < GUEST_STRING_LENGTH_LIMIT ∧
    md.utf8ByteSize < GUEST_STRING_LENGTH_LIMIT ∧
    ∃ g, s.guests pk = some g ∧ g.mints < GUEST_MINT_LIMIT ∧
      s.tokens_by_id tid = none ∧
      s' = { s with
        guests := upd s.guests pk (some { g with mints := g.mints + 1 }),
        tokens_by_id := upd s.tokens_by_id tid
          (some { owner_id := g.account_id, metadata := md,
                  approved_account_ids := ∅ }),
        tokens_per_owner := upd s.tokens_per_owner g.account_id
          (some (insert tid ((s.tokens_per_owner g.account_id).getD ∅))),
        total_supply := s.total_supply + 1 } := by
  unfold nft_mint_guest at h
  by_cases h1 : tid.utf8ByteSize < GUEST_STRING_LENGTH_LIMIT
  · by_cases h2 : md.utf8ByteSize < GUEST_STRING_LENGTH_LIMIT
    · simp only [if_pos h1, if_pos h2] at h
      cases ha : admin_guest s pk 1 with
      | error e => simp [ha] at h
      | ok p =>
        obtain ⟨g1, s1⟩ := p
        simp only [ha] at h
        obtain ⟨g, hg, hm, hg1, hs1⟩ := admin_guest_ok ha
        subst hg1
        subst hs1
        cases ht : s.tokens_by_id tid with
        | some t => simp [ht] at h
        | none =>
          simp only [internal_add_token_to_owner, ht] at h
          refine ⟨h1, h2, g, hg, hm, rfl, ?_⟩
          exact (Except.ok.inj h).symm
    · simp [if_pos h1, if_neg h2] at h
  · simp [if_neg h1] at h

theorem nft_add_sale_guest_ok {s s' : Contract} {pk : PublicKey} {tid : TokenId}
    {price : Nat} {mid : AccountId} {dep : Nat}
    (h : nft_add_sale_guest s pk tid price mid dep = .ok s') :
    dep ≤ MAX_MARKET_DEPOSIT ∧
    ∃ g t, s.guests pk = some g ∧ g.mints < GUEST_MINT_LIMIT ∧
      s.tokens_by_id tid = some t ∧ g.account_id = t.owner_id ∧
      t.approved_account_ids.card = 0 ∧
      s' = { s with
        guests := upd s.guests pk (some g),
        tokens_by_id := upd s.tokens_by_id tid
          (some { t with approved_account_ids := insert mid t.approved_account_ids }),
        guest_sales := upd s.guest_sales tid
          (some { public_key := pk, price := price, deposit := dep }) } := by
  unfold nft_add_sale_guest at h
  by_cases hd : dep ≤ MAX_MARKET_DEPOSIT
  · simp only [if_pos hd] at h
    cases ha : admin_guest s pk 0 with
    | error e => simp [ha] at h
    | ok p =>
      obtain ⟨g1, s1⟩ := p
      simp only [ha] at h
      obtain ⟨g, hg, hm, hg1, hs1⟩ := admin_guest_ok ha
      subst hg1; subst hs1
      cases ht : s.tokens_by_id tid with
      | none => simp [ht] at h
      | some t =>
        simp only [ht] at h
        split at h
        · split at h
          · exact ⟨hd, g, t, hg, hm, rfl, by assumption, by assumption,
              (Except.ok.inj h).symm⟩
          · simp at h
        · simp at h
  · simp [if_neg hd] at h

theorem nft_remove_sale_guest_ok {s s' : Contract} {pk : PublicKey}
    {tid : TokenId} {mid : AccountId}
    (h : nft_remove_sale_guest s pk tid mid = .ok s') :
    ∃ g t, s.guests pk = some g ∧ g.mints < GUEST_MINT_LIMIT ∧
      s.tokens_by_id tid = some t ∧ g.account_id = t.owner_id ∧
      t.approved_account_ids.card = 1 ∧
      s' = { s with
        guests := upd s.guests pk (some g),
        tokens_by_id := upd s.tokens_by_id tid
          (some { t with
            approved_account_ids := t.approved_account_ids.erase mid }),
        guest_sales := upd s.guest_sales tid none } := by
  unfold nft_remove_sale_guest at h
  cases ha : admin_guest s pk 0 with
  | error e => simp [ha] at h
  | ok p =>
    obtain ⟨g1, s1⟩ := p
    simp only [ha] at h
    obtain ⟨g, hg, hm, hg1, hs1⟩ := admin_guest_ok ha
    subst hg1; subst hs1
    cases ht : s.tokens_by_id tid with
    | none => simp [ht] at h
    | some t =>
      simp only [ht] at h
      split at h
      · split at h
        · exact ⟨g, t, hg, hm, rfl, by assumption, by assumption,
            (Except.ok.inj h).symm⟩
        · simp at h
      · simp at h

theorem add_guest_ok {s s' : Contract} {pred acct : AccountId} {pk : PublicKey}
    (h : add_guest s pred acct pk = .ok s') :
    pred = s.owner_id ∧ s.tokens_per_owner acct = none ∧ s.guests pk = none ∧
    s' = { s with
      guests := upd s.guests pk
        (some { account_id := acct, mints := 0, balance := 0 }) } := by
  unfold add_guest at h
  split at h
  · split at h
    · simp at h
    · split at h
      · simp at h
      · refine ⟨by assumption, ?_, ?_, (Except.ok.inj h).symm⟩
        · exact Option.not_isSome_iff_eq_none.mp (by assumption)
        · exact Option.not_isSome_iff_eq_none.mp (by assumption)
  · simp at h

theorem remove_guest_ok {s s' : Contract} {pred : AccountId} {pk : PublicKey}
    (h : remove_guest s pred pk = .ok s') :
    pred = s.owner_id ∧ ∃ g, s.guests pk = some g ∧
      s' = { s with
        tokens_per_owner := upd s.tokens_per_owner g.account_id none,
        guests := upd s.guests pk none } := by
  unfold remove_guest at h
  split at h
  · cases hg : s.guests pk with
    | none => simp [hg] at h
    | some g =>
      simp only [hg] at h
      exact ⟨by assumption, g, rfl, (Except.ok.inj h).symm⟩
  · simp at h

theorem on_account_created_ok {s s' : Contract} {results : List PromiseResult}
    {acct : AccountId} {pk : PublicKey} {b : Bool}
    (h : on_account_created s results acct pk = .ok (s', b)) :
    (b = true ∧ (∃ d, results = [PromiseResult.Successful d]) ∧
      s' = { s with guests := upd s.guests pk none }) ∨
    (b = false ∧ (∃ r, results = [r] ∧ ∀ d, r ≠ PromiseResult.Successful d) ∧
      s' = s) := by
  unfold on_account_created is_promise_success at h
  match results with
  | [] => simp at h
  | r :: r2 :: rest => cases r <;> simp at h
  | [PromiseResult.Successful d] =>
    simp only [Except.ok.injEq, Prod.mk.injEq] at h
    exact Or.inl ⟨h.2.symm, ⟨d, rfl⟩, h.1.symm⟩
  | [PromiseResult.NotReady] =>
    simp only [Except.ok.injEq, Prod.mk.injEq] at h
    exact Or.inr ⟨h.2.symm, ⟨PromiseResult.NotReady, rfl, by intro d hd; cases hd⟩,
      h.1.symm⟩
  | [PromiseResult.Failed] =>
    simp only [Except.ok.injEq, Prod.mk.injEq] at h
    exact Or.inr ⟨h.2.symm, ⟨PromiseResult.Failed, rfl, by intro d hd; cases hd⟩,
      h.1.symm⟩

theorem upgrade_guest_ok {s s' : Contract} {pk : PublicKey} {cur : AccountId}
    {k1 k2 mn : String} {r : UpgradeRequest}
    (h : upgrade_guest s pk cur k1 k2 mn = .ok (s', r)) :
    ∃ g, s.guests pk = some g ∧ g.balance > SPONSOR_FEE ∧ s' = s ∧
      r = { account_id := g.account_id,
            full_access_key := k1,
            scoped_access_key := k2,
            allowance := ACCESS_KEY_ALLOWANCE,
            receiver_id := cur,
            method_names := mn,
            transfer_amount := g.balance - SPONSOR_FEE,
            callback_account_id := g.account_id,
            callback_public_key := pk } := by
  unfold upgrade_guest at h
  cases hg : s.guests pk with
  | none => simp [hg] at h
  | some g =>
    simp only [hg] at h
    split at h
    · simp only [Except.ok.injEq, Prod.mk.injEq] at h
      exact ⟨g, rfl, by assumption, h.1.symm, h.2.symm⟩
    · simp at h

/-! ## Reachability invariants -/

/-- Every registered guest respects the mint quota. -/
def MintsInv (s : Contract) : Prop :=
  ∀ pk g, s.guests pk = some g → g.mints ≤ GUEST_MINT_LIMIT

/-- Every token has at most one approved account. -/
def ApprovalInv (s : Contract) : Prop :=
  ∀ tid t, s.tokens_by_id tid = some t → t.approved_account_ids.card ≤ 1

/-- Every recorded sale points at an existing token with exactly one
approved account. -/
def SaleInv (s : Contract) : Prop :=
  ∀ tid sale, s.guest_sales tid = some sale →
    ∃ t, s.tokens_by_id tid = some t ∧ t.approved_account_ids.card = 1

theorem new_guests (o : AccountId) (e : StorageEnv) (pk : PublicKey) :
    (Contract.new o e).guests pk = none := rfl

theorem new_tokens_by_id (o : AccountId) (e : StorageEnv) (tid : TokenId) :
    (Contract.new o e).tokens_by_id tid = none := rfl

theorem new_guest_sales (o : AccountId) (e : StorageEnv) (tid : TokenId) :
    (Contract.new o e).guest_sales tid = none := rfl

theorem new_tokens_per_owner (o : AccountId) (e : StorageEnv) (a : AccountId) :
    (Contract.new o e).tokens_per_owner a = none := by
  by_cases h : a = tmpAccountId <;>
    simp [Contract.new, measure_min_token_storage_cost, upd, h]

theorem mintsInv_step {s s' : Contract} (st : Step s s') (inv : MintsInv s) :
    MintsInv s' := by
  cases st with
  | mint pk tid md h =>
    obtain ⟨-, -, g, hg, hm, -, hs'⟩ := nft_mint_guest_ok h
    subst hs'
    intro k gk hk
    have hk' : upd s.guests pk (some { g with mints := g.mints + 1 }) k = some gk := hk
    by_cases hkpk : k = pk
    · rw [hkpk, upd_same] at hk'
      obtain rfl := Option.some.inj hk'
      have hm' : g.mints < 3 := hm
      show g.mints + 1 ≤ 3
      omega
    · rw [upd_other _ _ _ _ hkpk] at hk'
      exact inv k gk hk'
  | addSale pk tid price mid dep h =>
    obtain ⟨-, g, t, hg, hm, ht, -, -, hs'⟩ := nft_add_sale_guest_ok h
    subst hs'
    intro k gk hk
    have hk' : upd s.guests pk (some g) k = some gk := hk
    by_cases hkpk : k = pk
    · rw [hkpk, upd_same] at hk'
      obtain rfl := Option.some.inj hk'
      exact inv pk g hg
    · rw [upd_other _ _ _ _ hkpk] at hk'
      exact inv k gk hk'
  | removeSale pk tid mid h =>
    obtain ⟨g, t, hg, hm, ht, -, -, hs'⟩ := nft_remove_sale_guest_ok h
    subst hs'
    intro k gk hk
    have hk' : upd s.guests pk (some g) k = some gk := hk
    by_cases hkpk : k = pk
    · rw [hkpk, upd_same] at hk'
      obtain rfl := Option.some.inj hk'
      exact inv pk g hg
    · rw [upd_other _ _ _ _ hkpk] at hk'
      exact inv k gk hk'
  | upgrade pk cur k1 k2 mn r h =>
    obtain ⟨g, hg, hb, hs', -⟩ := upgrade_guest_ok h
    subst hs'
    exact inv
  | onCreated results acct pk b h =>
    rcases on_account_created_ok h with ⟨-, -, hs'⟩ | ⟨-, -, hs'⟩ <;> subst hs'
    · intro k gk hk
      have hk' : upd s.guests pk none k = some gk := hk
      by_cases hkpk : k = pk
      · rw [hkpk, upd_same] at hk'; cases hk'
      · rw [upd_other _ _ _ _ hkpk] at hk'
        exact inv k gk hk'
    · exact inv
  | addGuest pred acct pk h =>
    obtain ⟨-, -, -, hs'⟩ := add_guest_ok h
    subst hs'
    intro k gk hk
    have hk' : upd s.guests pk
        (some { account_id := acct, mints := 0, balance := 0 }) k = some gk := hk
    by_cases hkpk : k = pk
    · rw [hkpk, upd_same] at hk'
      obtain rfl := Option.some.inj hk'
      show (0 : Nat) ≤ 3
      omega
    · rw [upd_other _ _ _ _ hkpk] at hk'
      exact inv k gk hk'
  | removeGuest pred pk h =>
    obtain ⟨-, g, hg, hs'⟩ := remove_guest_ok h
    subst hs'
    intro k gk hk
    have hk' : upd s.guests pk none k = some gk := hk
    by_cases hkpk : k = pk
    · rw [hkpk, upd_same] at hk'; cases hk'
    · rw [upd_other _ _ _ _ hkpk] at hk'
      exact inv k gk hk'

theorem reachable_mintsInv {s : Contract} (h : Reachable s) : MintsInv s := by
  induction h with
  | init o e => intro pk g hg; rw [new_guests] at hg; cases hg
  | step _ st ih => exact mintsInv_step st ih

theorem approvalInv_step {s s' : Contract} (st : Step s s') (inv : ApprovalInv s) :
    ApprovalInv s' := by
  cases st with
  | mint pk tid md h =>
    obtain ⟨-, -, g, hg, hm, hnone, hs'⟩ := nft_mint_guest_ok h
    subst hs'
    intro k t hk
    have hk' : upd s.tokens_by_id tid
        (some { owner_id := g.account_id, metadata := md,
                approved_account_ids := ∅ }) k = some t := hk
    by_cases hkt : k = tid
    · rw [hkt, upd_same] at hk'
      obtain rfl := Option.some.inj hk'
      simp
    · rw [upd_other _ _ _ _ hkt] at hk'
      exact inv k t hk'
  | addSale pk tid price mid dep h =>
    obtain ⟨-, g, t, hg, hm, ht, -, hc, hs'⟩ := nft_add_sale_guest_ok h
    subst hs'
    intro k tk hk
    have hk' : upd s.tokens_by_id tid
        (some { t with approved_account_ids := insert mid t.approved_account_ids })
        k = some tk := hk
    by_cases hkt : k = tid
    · rw [hkt, upd_same] at hk'
      obtain rfl := Option.some.inj hk'
      calc (insert mid t.approved_account_ids).card
          ≤ t.approved_account_ids.card + 1 := Finset.card_insert_le _ _
        _ ≤ 1 := by rw [hc]
    · rw [upd_other _ _ _ _ hkt] at hk'
      exact inv k tk hk'
  | removeSale pk tid mid h =>
    obtain ⟨g, t, hg, hm, ht, -, hc, hs'⟩ := nft_remove_sale_guest_ok h
    subst hs'
    intro k tk hk
    have hk' : upd s.tokens_by_id tid
        (some { t with
          approved_account_ids := t.approved_account_ids.erase mid })
        k = some tk := hk
    by_cases hkt : k = tid
    · rw [hkt, upd_same] at hk'
      obtain rfl := Option.some.inj hk'
      calc (t.approved_account_ids.erase mid).card
          ≤ t.approved_account_ids.card := Finset.card_erase_le
        _ ≤ 1 := by rw [hc]
    · rw [upd_other _ _ _ _ hkt] at hk'
      exact inv k tk hk'
  | upgrade pk cur k1 k2 mn r h =>
    obtain ⟨g, hg, hb, hs', -⟩ := upgrade_guest_ok h
    subst hs'
    exact inv
  | onCreated results acct pk b h =>
    rcases on_account_created_ok h with ⟨-, -, hs'⟩ | ⟨-, -, hs'⟩ <;> subst hs'
    · intro k t hk; exact inv k t hk
    · exact inv
  | addGuest pred acct pk h =>
    obtain ⟨-, -, -, hs'⟩ := add_guest_ok h
    subst hs'
    intro k t hk; exact inv k t hk
  | removeGuest pred pk h =>
    obtain ⟨-, g, hg, hs'⟩ := remove_guest_ok h
    subst hs'
    intro k t hk; exact inv k t hk

theorem reachable_approvalInv {s : Contract} (h : Reachable s) : ApprovalInv s := by
  induction h with
  | init o e => intro tid t ht; rw [new_tokens_by_id] at ht; cases ht
  | step _ st ih => exact approvalInv_step st ih

theorem saleInv_step {s s' : Contract} (st : Step s s') (inv : SaleInv s) :
    SaleInv s' := by
  cases st with
  | mint pk tid md h =>
    obtain ⟨-, -, g, hg, hm, hnone, hs'⟩ := nft_mint_guest_ok h
    subst hs'
    intro k sale hk
    have hk' : s.guest_sales k = some sale := hk
    obtain ⟨t0, ht0, hc0⟩ := inv k sale hk'
    by_cases hkt : k = tid
    · rw [hkt, hnone] at ht0; cases ht0
    · refine ⟨t0, ?_, hc0⟩
      show upd s.tokens_by_id tid _ k = some t0
      rw [upd_other _ _ _ _ hkt]
      exact ht0
  | addSale pk tid price mid dep h =>
    obtain ⟨-, g, t, hg, hm, ht, -, hc, hs'⟩ := nft_add_sale_guest_ok h
    subst hs'
    intro k sale hk
    have hk' : upd s.guest_sales tid
        (some { public_key := pk, price := price, deposit := dep }) k
        = some sale := hk
    by_cases hkt : k = tid
    · subst hkt
      refine ⟨{ t with approved_account_ids := insert mid t.approved_account_ids },
        ?_, ?_⟩
      · show upd s.tokens_by_id k _ k = _
        rw [upd_same]
      · have hempty : t.approved_account_ids = ∅ := Finset.card_eq_zero.mp hc
        simp [hempty]
    · rw [upd_other _ _ _ _ hkt] at hk'
      obtain ⟨t0, ht0, hc0⟩ := inv k sale hk'
      refine ⟨t0, ?_, hc0⟩
      show upd s.tokens_by_id tid _ k = some t0
      rw [upd_other _ _ _ _ hkt]
      exact ht0
  | removeSale pk tid mid h =>
    obtain ⟨g, t, hg, hm, ht, -, hc, hs'⟩ := nft_remove_sale_guest_ok h
    subst hs'
    intro k sale hk
    have hk' : upd s.guest_sales tid none k = some sale := hk
    by_cases hkt : k = tid
    · rw [hkt, upd_same] at hk'; cases hk'
    · rw [upd_other _ _ _ _ hkt] at hk'
      obtain ⟨t0, ht0, hc0⟩ := inv k sale hk'
      refine ⟨t0, ?_, hc0⟩
      show upd s.tokens_by_id tid _ k = some t0
      rw [upd_other _ _ _ _ hkt]
      exact ht0
  | upgrade pk cur k1 k2 mn r h =>
    obtain ⟨g, hg, hb, hs', -⟩ := upgrade_guest_ok h
    subst hs'
    exact inv
  | onCreated results acct pk b h =>
    rcases on_account_created_ok h with ⟨-, -, hs'⟩ | ⟨-, -, hs'⟩ <;> subst hs'
    · intro k sale hk; exact inv k sale hk
    · exact inv
  | addGuest pred acct pk h =>
    obtain ⟨-, -, -, hs'⟩ := add_guest_ok h
    subst hs'
    intro k sale hk; exact inv k sale hk
  | removeGuest pred pk h =>
    obtain ⟨-, g, hg, hs'⟩ := remove_guest_ok h
    subst hs'
    intro k sale hk; exact inv k sale hk

theorem reachable_saleInv {s : Contract} (h : Reachable s) : SaleInv s := by
  induction h with
  | init o e => intro tid sale hsale; rw [new_guest_sales] at hsale; cases hsale
  | step _ st ih => exact saleInv_step st ih

/-! ## Concrete scenario states -/

/-- Extract the success state of a call, with a fallback default. -/
def okD (e : Except String Contract) (d : Contract) : Contract :=
  match e with
  | .ok s => s
  | .error _ => d

def demoEnv : StorageEnv := ⟨fun _ => 10⟩

def demoS0 : Contract := Contract.new "owner.near" demoEnv

def demoS1 : Contract :=
  okD (add_guest demoS0 "owner.near" "alice.near" "PKG") demoS0

def demoS2 : Contract := okD (nft_mint_guest demoS1 "PKG" "tok1" "meta") demoS1

def demoS3 : Contract := okD (nft_mint_guest demoS2 "PKG" "tok2" "meta") demoS2

def demoS4 : Contract := okD (nft_mint_guest demoS3 "PKG" "tok3" "meta") demoS3

def demoSale : Contract :=
  okD (nft_add_sale_guest demoS2 "PKG" "tok1" 5 "market.near" 10) demoS2

def demoBroken : Contract :=
  okD (nft_remove_sale_guest demoSale "PKG" "tok1" "other.market") demoSale

def demoRemoved : Contract :=
  okD (remove_guest demoS2 "owner.near" "PKG") demoS2

/-! ## Claim theorems -/

/-- C1: in every reachable state every guest's `mints` counter is at most
the quota `GUEST_MINT_LIMIT = 3`; `admin_guest` aborts with the mint-limit
error whenever `mints >= 3` (hence a 4th `nft_mint_guest` attempt aborts,
which under the host's full-rollback semantics leaves `mints` unchanged);
and a successful `nft_mint_guest` increments the caller's `mints` by
exactly 1. -/
theorem C1_guest_mint_quota :
    (∀ s, Reachable s → ∀ pk g, s.guests pk = some g →
      g.mints ≤ GUEST_MINT_LIMIT) ∧
    (∀ s pk g n, s.guests pk = some g → GUEST_MINT_LIMIT ≤ g.mints →
      admin_guest s pk n = .error "Exceeded guest mint limit") ∧
    (∀ s pk g tid md, s.guests pk = some g → GUEST_MINT_LIMIT ≤ g.mints →
      ∃ e, nft_mint_guest s pk tid md = .error e) ∧
    (∀ s s' pk tid md, nft_mint_guest s pk tid md = .ok s' →
      ∃ g, s.guests pk = some g ∧
        s'.guests pk = some { g with mints := g.mints + 1 }) := by
  have hadmin : ∀ (s : Contract) (pk : PublicKey) (g : Guest) (n : Nat),
      s.guests pk = some g → GUEST_MINT_LIMIT ≤ g.mints →
      admin_guest s pk n = .error "Exceeded guest mint limit" := by
    intro s pk g n hg hm
    unfold admin_guest
    rw [hg]
    exact if_neg (not_lt.mpr hm)
  refine ⟨fun s h => reachable_mintsInv h, hadmin, ?_, ?_⟩
  · intro s pk g tid md hg hm
    by_cases h1 : tid.utf8ByteSize < GUEST_STRING_LENGTH_LIMIT
    · by_cases h2 : md.utf8ByteSize < GUEST_STRING_LENGTH_LIMIT
      · refine ⟨"Exceeded guest mint limit", ?_⟩
        simp only [nft_mint_guest, if_pos h1, if_pos h2, hadmin s pk g 1 hg hm]
      · exact ⟨"Metadata too long for guest mint",
          by simp only [nft_mint_guest, if_pos h1, if_neg h2]⟩
    · exact ⟨"Token ID too long for guest mint",
        by simp only [nft_mint_guest, if_neg h1]⟩
  · intro s s' pk tid md h
    obtain ⟨-, -, g, hg, hm, -, hs'⟩ := nft_mint_guest_ok h
    subst hs'
    refine ⟨g, hg, ?_⟩
    show upd s.guests pk (some { g with mints := g.mints + 1 }) pk = _
    rw [upd_same]

/-- C1 witness: the guest of `demoS4` has exhausted the quota (`mints = 3`)
and a 4th mint attempt aborts. -/
theorem C1_guest_mint_quota_witness :
    demoS4.guests "PKG" =
      some { account_id := "alice.near", mints := 3, balance := 0 } ∧
    GUEST_MINT_LIMIT ≤ (3 : Nat) ∧
    ∃ e, nft_mint_guest demoS4 "PKG" "tok4" "meta" = .error e :=
  ⟨rfl, by decide,
    C1_guest_mint_quota.2.2.1 demoS4 "PKG"
      { account_id := "alice.near", mints := 3, balance := 0 }
      "tok4" "meta" rfl (by decide)⟩

def cexEnv : StorageEnv := ⟨fun _ => 100⟩

/-- C2 counterexample: with a measured entry delta of 100 bytes and the
real owner `"alice.near"` (10 bytes), the stored constant is
`100 + (64 - 10) = 154`, not the claimed `delta - (64 - 10) = 46` (the
overhead is added, not subtracted out), and the constant differs for an
owner of another length (`"bob"` gives `161`), so it is not independent of
the real owner identity's length. -/
theorem C2_counterexample :
    (Contract.new "alice.near" cexEnv).extra_storage_in_bytes_per_token ≠
      cexEnv.entry_cost tmpAccountId -
        (tmpAccountId.utf8ByteSize - String.utf8ByteSize "alice.near") ∧
    (Contract.new "alice.near" cexEnv).extra_storage_in_bytes_per_token ≠
      (Contract.new "bob" cexEnv).extra_storage_in_bytes_per_token := by
  constructor
  · intro h
    exact absurd h (by decide)
  · intro h
    exact absurd h (by decide)

/-- C2 amended: the per-token storage-cost constant computed once at
initialization equals the measured storage-usage byte delta of inserting
the synthetic owner-index entry PLUS the overhead attributable to the
synthetic identity's length versus the real owner identity's length, so
the constant plus the owner identity's byte length is what is invariant
(`delta + 64`); the constant itself decreases as the owner identity grows.
The throwaway entry is removed again, leaving the owner index empty. -/
theorem C2_storage_constant (env : StorageEnv) (owner : AccountId)
    (h : owner.utf8ByteSize ≤ 64) :
    (Contract.new owner env).extra_storage_in_bytes_per_token =
      env.entry_cost tmpAccountId +
        (tmpAccountId.utf8ByteSize - owner.utf8ByteSize) ∧
    (Contract.new owner env).extra_storage_in_bytes_per_token +
        owner.utf8ByteSize
      = env.entry_cost tmpAccountId + 64 ∧
    ∀ a, (Contract.new owner env).tokens_per_owner a = none := by
  have htmp : tmpAccountId.utf8ByteSize = 64 := by decide
  refine ⟨rfl, ?_, new_tokens_per_owner owner env⟩
  show env.entry_cost tmpAccountId +
      (tmpAccountId.utf8ByteSize - owner.utf8ByteSize) + owner.utf8ByteSize = _
  rw [htmp]
  omega

/-- C2 witness: the amended statement evaluated at a concrete environment
and owner. -/
theorem C2_storage_constant_witness :
    String.utf8ByteSize "alice.near" ≤ 64 ∧
    (Contract.new "alice.near" cexEnv).extra_storage_in_bytes_per_token =
      cexEnv.entry_cost tmpAccountId +
        (tmpAccountId.utf8ByteSize - String.utf8ByteSize "alice.near") :=
  ⟨by decide, (C2_storage_constant cexEnv "alice.near" (by decide)).1⟩

/-- C3: in every reachable state every token's `approved_account_ids` has
size 0 or 1; `nft_add_sale_guest` aborts (with the single-listing error)
when the set already has size 1, and `nft_remove_sale_guest` aborts (with
the no-sale error) when it has size 0, so no operation ever makes the set
larger than 1. -/
theorem C3_single_listing :
    (∀ s, Reachable s → ∀ tid t, s.tokens_by_id tid = some t →
      t.approved_account_ids.card ≤ 1) ∧
    (∀ s pk tid price mid dep g t,
      dep ≤ MAX_MARKET_DEPOSIT → s.guests pk = some g →
      g.mints < GUEST_MINT_LIMIT → s.tokens_by_id tid = some t →
      g.account_id = t.owner_id → t.approved_account_ids.card = 1 →
      nft_add_sale_guest s pk tid price mid dep =
        .error "Can only approve one market at a time as guest") ∧
    (∀ s pk tid mid g t,
      s.guests pk = some g → g.mints < GUEST_MINT_LIMIT →
      s.tokens_by_id tid = some t → g.account_id = t.owner_id →
      t.approved_account_ids.card = 0 →
      nft_remove_sale_guest s pk tid mid = .error "No sale at market") := by
  refine ⟨fun s h => reachable_approvalInv h, ?_, ?_⟩
  · intro s pk tid price mid dep g t hdep hg hm ht howner hc
    have ha : admin_guest s pk 0 = .ok ({ g with mints := g.mints + 0 }, { s with guests := upd s.guests pk (some { g with mints := g.mints + 0 }) }) := by
      unfold admin_guest
      rw [hg]
      exact if_pos hm
    simp only [nft_add_sale_guest, if_pos hdep, ha, ht]
    rw [if_pos howner, if_neg (by rw [hc]; omega)]
  · intro s pk tid mid g t hg hm ht howner hc
    have ha : admin_guest s pk 0 = .ok ({ g with mints := g.mints + 0 }, { s with guests := upd s.guests pk (some { g with mints := g.mints + 0 }) }) := by
      unfold admin_guest
      rw [hg]
      exact if_pos hm
    simp only [nft_remove_sale_guest, ha, ht]
    rw [if_pos howner, if_neg (by rw [hc]; omega)]

/-- C3 witness: on `demoSale`, where `tok1` already carries one approval, a
second listing attempt aborts with the single-listing error. -/
theorem C3_single_listing_witness :
    demoSale.tokens_by_id "tok1" =
      some { owner_id := "alice.near", metadata := "meta",
             approved_account_ids := insert "market.near" ∅ } ∧
    (insert "market.near" (∅ : Finset AccountId)).card = 1 ∧
    nft_add_sale_guest demoSale "PKG" "tok1" 7 "m2.near" 0 =
      .error "Can only approve one market at a time as guest" :=
  ⟨rfl, by decide,
    C3_single_listing.2.1 demoSale "PKG" "tok1" 7 "m2.near" 0
      { account_id := "alice.near", mints := 1, balance := 0 }
      { owner_id := "alice.near", metadata := "meta",
        approved_account_ids := insert "market.near" ∅ }
      (by decide) rfl (by decide) rfl rfl (by decide)⟩

/-- C4: `on_account_created` aborts unless exactly one promise-outcome
result is present; with exactly one successful outcome it deletes the
guest record keyed by the given public key (all other state unchanged) and
returns `true`; with exactly one failed outcome it returns `false` and
leaves the whole state (in particular every guest record with its balance
and mints) unchanged. -/
theorem C4_on_account_created :
    (∀ s results acct pk, results.length ≠ 1 →
      on_account_created s results acct pk =
        .error "Contract expected a result on the callback") ∧
    (∀ s results acct pk d, results = [PromiseResult.Successful d] →
      ∃ s', on_account_created s results acct pk = .ok (s', true) ∧
        s'.guests pk = none ∧
        (∀ k, k ≠ pk → s'.guests k = s.guests k) ∧
        s'.tokens_per_owner = s.tokens_per_owner ∧
        s'.tokens_by_id = s.tokens_by_id ∧
        s'.guest_sales = s.guest_sales ∧
        s'.total_supply = s.total_supply) ∧
    (∀ s results acct pk r, results = [r] →
      (∀ d, r ≠ PromiseResult.Successful d) →
      on_account_created s results acct pk = .ok (s, false)) := by
  refine ⟨?_, ?_, ?_⟩
  · intro s results acct pk hlen
    match results with
    | [] => rfl
    | [r] => simp at hlen
    | r :: r2 :: rest => cases r <;> rfl
  · intro s results acct pk d hres
    subst hres
    refine ⟨{ s with guests := upd s.guests pk none }, rfl, ?_, ?_, rfl, rfl, rfl, rfl⟩
    · show upd s.guests pk none pk = none
      rw [upd_same]
    · intro k hk
      show upd s.guests pk none k = s.guests k
      rw [upd_other _ _ _ _ hk]
  · intro s results acct pk r hres hfail
    subst hres
    cases r with
    | NotReady => rfl
    | Successful d => exact absurd rfl (hfail d)
    | Failed => rfl

/-- C4 witness: zero results abort; one failed result returns `false` with
the state unchanged. -/
theorem C4_on_account_created_witness :
    (([] : List PromiseResult).length ≠ 1 ∧
      on_account_created demoS1 [] "alice.near" "PKG" =
        .error "Contract expected a result on the callback") ∧
    on_account_created demoS1 [PromiseResult.Failed] "alice.near" "PKG" =
      .ok (demoS1, false) :=
  ⟨⟨by decide, C4_on_account_created.1 demoS1 [] "alice.near" "PKG" (by decide)⟩,
    C4_on_account_created.2.2 demoS1 [PromiseResult.Failed] "alice.near" "PKG"
      PromiseResult.Failed rfl (fun d hd => by cases hd)⟩

/-- C5: `upgrade_guest` aborts with "No guest" when the signer key resolves
to no guest; with a guest present it aborts with "Not enough to upgrade"
exactly when the balance is not strictly greater than the sponsor fee; and
a successful call returns the outbound provisioning request (transferring
`balance - SPONSOR_FEE`) while leaving the contract state unchanged and
deleting no guest record. -/
theorem C5_upgrade_guard :
    (∀ s pk cur k1 k2 mn, s.guests pk = none →
      upgrade_guest s pk cur k1 k2 mn = .error "No guest") ∧
    (∀ s pk cur k1 k2 mn g, s.guests pk = some g →
      (¬ g.balance > SPONSOR_FEE ↔
        upgrade_guest s pk cur k1 k2 mn = .error "Not enough to upgrade")) ∧
    (∀ s s' pk cur k1 k2 mn r,
      upgrade_guest s pk cur k1 k2 mn = .ok (s', r) →
      s' = s ∧ (∀ g, s.guests pk = some g →
        g.balance > SPONSOR_FEE ∧
        r.transfer_amount = g.balance - SPONSOR_FEE)) := by
  refine ⟨?_, ?_, ?_⟩
  · intro s pk cur k1 k2 mn hg
    unfold upgrade_guest
    rw [hg]
  · intro s pk cur k1 k2 mn g hg
    constructor
    · intro hb
      unfold upgrade_guest
      rw [hg]
      exact if_neg hb
    · intro h hb
      simp only [upgrade_guest, hg] at h
      rw [if_pos hb] at h
      cases h
  · intro s s' pk cur k1 k2 mn r h
    obtain ⟨g, hg, hb, hs', hr⟩ := upgrade_guest_ok h
    subst hs'
    refine ⟨rfl, ?_⟩
    intro g0 hg0
    rw [hg] at hg0
    obtain rfl := Option.some.inj hg0
    subst hr
    exact ⟨hb, rfl⟩

/-- C5 witness: on `demoS1` the guest has balance 0, which is not above the
sponsor fee, so the upgrade aborts; an unknown key aborts with "No guest". -/
theorem C5_upgrade_guard_witness :
    (demoS1.guests "nokey" = none ∧
      upgrade_guest demoS1 "nokey" "nft.near" "k1" "k2" "m" =
        .error "No guest") ∧
    (demoS1.guests "PKG" =
        some { account_id := "alice.near", mints := 0, balance := 0 } ∧
      upgrade_guest demoS1 "PKG" "nft.near" "k1" "k2" "m" =
        .error "Not enough to upgrade") :=
  ⟨⟨rfl, C5_upgrade_guard.1 demoS1 "nokey" "nft.near" "k1" "k2" "m" rfl⟩,
    ⟨rfl, (C5_upgrade_guard.2.1 demoS1 "PKG" "nft.near" "k1" "k2" "m"
      { account_id := "alice.near", mints := 0, balance := 0 } rfl).mp
      (by decide)⟩⟩

def demoUnlisted : Contract :=
  okD (nft_remove_sale_guest demoSale "PKG" "tok1" "market.near") demoSale

/-- C6 counterexample: `demoBroken` is reachable (add guest, mint `tok1`,
list it on `market.near`, then call `nft_remove_sale_guest` with the
different market `other.market`); in it the token's approval set is still
non-empty while its `GuestSale` record is gone, so the claimed
iff-invariant is false and `nft_remove_sale_guest` did not remove the
approval together with the sale. -/
theorem C6_counterexample :
    Reachable demoBroken ∧
    demoBroken.guest_sales "tok1" = none ∧
    demoBroken.tokens_by_id "tok1" =
      some { owner_id := "alice.near", metadata := "meta",
             approved_account_ids :=
               (insert "market.near" ∅ : Finset AccountId).erase "other.market" } ∧
    ((insert "market.near" ∅ : Finset AccountId).erase "other.market") ≠ ∅ := by
  refine ⟨?_, rfl, rfl, by decide⟩
  have r0 : Reachable demoS0 := Reachable.init "owner.near" demoEnv
  have r1 : Reachable demoS1 :=
    r0.step (Step.addGuest demoS0 demoS1 "owner.near" "alice.near" "PKG" rfl)
  have r2 : Reachable demoS2 :=
    r1.step (Step.mint demoS1 demoS2 "PKG" "tok1" "meta" rfl)
  have r3 : Reachable demoSale :=
    r2.step (Step.addSale demoS2 demoSale "PKG" "tok1" 5 "market.near" 10 rfl)
  exact r3.step (Step.removeSale demoSale demoBroken "PKG" "tok1" "other.market" rfl)

/-- C6 amended: in every reachable state, if a `GuestSale` exists for a
token id then that token exists and its approval set has exactly one
element (at most one sale per token); and `nft_remove_sale_guest` always
deletes the `GuestSale`, removing the approval together with it only when
called with the market that is actually the approved account. The
converse direction of the claimed iff is false (see the counterexample):
a call with a different market deletes the sale but leaves the approval. -/
theorem C6_sale_approval :
    (∀ s, Reachable s → ∀ tid sale, s.guest_sales tid = some sale →
      ∃ t, s.tokens_by_id tid = some t ∧ t.approved_account_ids.card = 1) ∧
    (∀ s s' pk tid mid, nft_remove_sale_guest s pk tid mid = .ok s' →
      s'.guest_sales tid = none ∧
      ∀ t, s.tokens_by_id tid = some t → t.approved_account_ids = {mid} →
        s'.tokens_by_id tid = some { t with approved_account_ids := ∅ }) := by
  refine ⟨fun s h => reachable_saleInv h, ?_⟩
  intro s s' pk tid mid h
  obtain ⟨g, t0, hg, hm, ht0, -, hc, hs'⟩ := nft_remove_sale_guest_ok h
  subst hs'
  constructor
  · show upd s.guest_sales tid none tid = none
    rw [upd_same]
  · intro t ht happ
    rw [ht0] at ht
    obtain rfl := Option.some.inj ht
    show upd s.tokens_by_id tid
      (some { t0 with
        approved_account_ids := t0.approved_account_ids.erase mid }) tid = _
    rw [upd_same, happ, Finset.erase_singleton]

/-- C6 witness: unlisting `tok1` with the market that is actually approved
removes both the sale record and the approval. -/
theorem C6_sale_approval_witness :
    nft_remove_sale_guest demoSale "PKG" "tok1" "market.near" =
      .ok demoUnlisted ∧
    demoUnlisted.guest_sales "tok1" = none ∧
    demoUnlisted.tokens_by_id "tok1" =
      some { owner_id := "alice.near", metadata := "meta",
             approved_account_ids := (∅ : Finset AccountId) } :=
  ⟨rfl,
    (C6_sale_approval.2 demoSale demoUnlisted "PKG" "tok1" "market.near" rfl).1,
    (C6_sale_approval.2 demoSale demoUnlisted "PKG" "tok1" "market.near" rfl).2
      { owner_id := "alice.near", metadata := "meta",
        approved_account_ids := insert "market.near" ∅ } rfl (by decide)⟩

/-- C7: `nft_mint_guest` aborts when the token id or the metadata reaches
the fixed length ceiling, when the caller is not a guest, when the quota
is exhausted, or when the token id already exists; otherwise it creates a
token owned by the guest's linked `account_id` with an empty approval set,
adds the token id to that owner's index, and increments `total_supply` by
exactly 1, all within the single call. -/
theorem C7_mint_workflow :
    (∀ s pk tid md, ¬ tid.utf8ByteSize < GUEST_STRING_LENGTH_LIMIT →
      nft_mint_guest s pk tid md = .error "Token ID too long for guest mint") ∧
    (∀ s pk tid md, tid.utf8ByteSize < GUEST_STRING_LENGTH_LIMIT →
      ¬ md.utf8ByteSize < GUEST_STRING_LENGTH_LIMIT →
      nft_mint_guest s pk tid md = .error "Metadata too long for guest mint") ∧
    (∀ s pk tid md, tid.utf8ByteSize < GUEST_STRING_LENGTH_LIMIT →
      md.utf8ByteSize < GUEST_STRING_LENGTH_LIMIT → s.guests pk = none →
      nft_mint_guest s pk tid md = .error "Not a guest") ∧
    (∀ s pk tid md g, tid.utf8ByteSize < GUEST_STRING_LENGTH_LIMIT →
      md.utf8ByteSize < GUEST_STRING_LENGTH_LIMIT → s.guests pk = some g →
      ¬ g.mints < GUEST_MINT_LIMIT →
      nft_mint_guest s pk tid md = .error "Exceeded guest mint limit") ∧
    (∀ s pk tid md g t, tid.utf8ByteSize < GUEST_STRING_LENGTH_LIMIT →
      md.utf8ByteSize < GUEST_STRING_LENGTH_LIMIT → s.guests pk = some g →
      g.mints < GUEST_MINT_LIMIT → s.tokens_by_id tid = some t →
      nft_mint_guest s pk tid md = .error "Token already exists") ∧
    (∀ s pk tid md g, tid.utf8ByteSize < GUEST_STRING_LENGTH_LIMIT →
      md.utf8ByteSize < GUEST_STRING_LENGTH_LIMIT → s.guests pk = some g →
      g.mints < GUEST_MINT_LIMIT → s.tokens_by_id tid = none →
      nft_mint_guest s pk tid md = .ok { s with guests := upd s.guests pk (some { g with mints := g.mints + 1 }), tokens_by_id := upd s.tokens_by_id tid (some { owner_id := g.account_id, metadata := md, approved_account_ids := ∅ }), tokens_per_owner := upd s.tokens_per_owner g.account_id (some (insert tid ((s.tokens_per_owner g.account_id).getD ∅))), total_supply := s.total_supply + 1 }) := by
  refine ⟨?_, ?_, ?_, ?_, ?_, ?_⟩
  · intro s pk tid md h1
    simp only [nft_mint_guest, if_neg h1]
  · intro s pk tid md h1 h2
    simp only [nft_mint_guest, if_pos h1, if_neg h2]
  · intro s pk tid md h1 h2 hg
    have ha : admin_guest s pk 1 = .error "Not a guest" := by
      unfold admin_guest
      rw [hg]
    simp only [nft_mint_guest, if_pos h1, if_pos h2, ha]
  · intro s pk tid md g h1 h2 hg hm
    have ha : admin_guest s pk 1 = .error "Exceeded guest mint limit" := by
      unfold admin_guest
      rw [hg]
      exact if_neg hm
    simp only [nft_mint_guest, if_pos h1, if_pos h2, ha]
  · intro s pk tid md g t h1 h2 hg hm ht
    have ha : admin_guest s pk 1 = .ok ({ g with mints := g.mints + 1 }, { s with guests := upd s.guests pk (some { g with mints := g.mints + 1 }) }) := by
      unfold admin_guest
      rw [hg]
      exact if_pos hm
    simp only [nft_mint_guest, if_pos h1, if_pos h2, ha, ht]
  · intro s pk tid md g h1 h2 hg hm htn
    have ha : admin_guest s pk 1 = .ok ({ g with mints := g.mints + 1 }, { s with guests := upd s.guests pk (some { g with mints := g.mints + 1 }) }) := by
      unfold admin_guest
      rw [hg]
      exact if_pos hm
    simp only [nft_mint_guest, if_pos h1, if_pos h2, ha, htn,
      internal_add_token_to_owner]

/-- C7 witness: minting an id that already exists aborts with the
duplicate-token error. -/
theorem C7_mint_workflow_witness :
    demoS2.tokens_by_id "tok1" =
      some { owner_id := "alice.near", metadata := "meta",
             approved_account_ids := (∅ : Finset AccountId) } ∧
    nft_mint_guest demoS2 "PKG" "tok1" "x" = .error "Token already exists" :=
  ⟨rfl,
    C7_mint_workflow.2.2.2.2.1 demoS2 "PKG" "tok1" "x"
      { account_id := "alice.near", mints := 1, balance := 0 }
      { owner_id := "alice.near", metadata := "meta",
        approved_account_ids := (∅ : Finset AccountId) }
      (by decide) (by decide) rfl (by decide) rfl⟩

/-- C8: `add_guest` aborts unless the caller is the contract owner; aborts
with the already-registered error when the target account already has a
`tokens_per_owner` entry; aborts with the already-added error when the key
is already a guest; otherwise inserts a fresh guest with `mints = 0` and
`balance = 0` linked to the given account id. -/
theorem C8_add_guest :
    (∀ s pred acct pk, pred ≠ s.owner_id →
      add_guest s pred acct pk = .error "must be owner_id") ∧
    (∀ s pred acct pk t, pred = s.owner_id →
      s.tokens_per_owner acct = some t →
      add_guest s pred acct pk = .error "The account is already registered") ∧
    (∀ s pred acct pk g, pred = s.owner_id →
      s.tokens_per_owner acct = none → s.guests pk = some g →
      add_guest s pred acct pk = .error "guest account already added") ∧
    (∀ s pred acct pk, pred = s.owner_id →
      s.tokens_per_owner acct = none → s.guests pk = none →
      add_guest s pred acct pk = .ok { s with guests := upd s.guests pk (some { account_id := acct, mints := 0, balance := 0 }) }) := by
  refine ⟨?_, ?_, ?_, ?_⟩
  · intro s pred acct pk h
    simp only [add_guest, if_neg h]
  · intro s pred acct pk t hpred ht
    simp [add_guest, hpred, ht]
  · intro s pred acct pk g hpred ht hg
    simp [add_guest, hpred, ht, hg]
  · intro s pred acct pk hpred ht hg
    simp [add_guest, hpred, ht, hg]

/-- C8 witness: a non-owner caller is rejected; registering a fresh guest
on `demoS0` succeeds with zero mints and zero balance. -/
theorem C8_add_guest_witness :
    ("mallory.near" : AccountId) ≠ demoS1.owner_id ∧
    add_guest demoS1 "mallory.near" "x.near" "PKX" =
      .error "must be owner_id" ∧
    add_guest demoS0 "owner.near" "bob.near" "PKB" =
      .ok { demoS0 with guests := upd demoS0.guests "PKB" (some { account_id := "bob.near", mints := 0, balance := 0 }) } :=
  ⟨by decide,
    C8_add_guest.1 demoS1 "mallory.near" "x.near" "PKX" (by decide),
    C8_add_guest.2.2.2 demoS0 "owner.near" "bob.near" "PKB" rfl rfl rfl⟩

/-- C9: `remove_guest`, called by the owner on an existing guest, deletes
exactly the guest's `tokens_per_owner` entry and the guest record itself:
`tokens_by_id` (so every token, owner field included), every other guest,
`guest_sales`, `total_supply` and the owner id are unchanged. -/
theorem C9_remove_guest_frame (s s' : Contract) (pred : AccountId)
    (pk : PublicKey) (g : Guest) (hg : s.guests pk = some g)
    (h : remove_guest s pred pk = .ok s') :
    s'.tokens_per_owner g.account_id = none ∧
    s'.guests pk = none ∧
    (∀ a, a ≠ g.account_id → s'.tokens_per_owner a = s.tokens_per_owner a) ∧
    (∀ k, k ≠ pk → s'.guests k = s.guests k) ∧
    s'.tokens_by_id = s.tokens_by_id ∧
    s'.guest_sales = s.guest_sales ∧
    s'.total_supply = s.total_supply ∧
    s'.owner_id = s.owner_id := by
  obtain ⟨hpred, g0, hg0, hs'⟩ := remove_guest_ok h
  rw [hg] at hg0
  obtain rfl := Option.some.inj hg0
  subst hs'
  refine ⟨?_, ?_, ?_, ?_, rfl, rfl, rfl, rfl⟩
  · show upd s.tokens_per_owner g.account_id none g.account_id = none
    rw [upd_same]
  · show upd s.guests pk none pk = none
    rw [upd_same]
  · intro a ha
    show upd s.tokens_per_owner g.account_id none a = _
    rw [upd_other _ _ _ _ ha]
  · intro k hk
    show upd s.guests pk none k = _
    rw [upd_other _ _ _ _ hk]

/-- C9 witness: removing the guest of `demoS2` deletes its owner-index
entry and guest record while the token map and total supply survive. -/
theorem C9_remove_guest_frame_witness :
    demoS2.guests "PKG" =
      some { account_id := "alice.near", mints := 1, balance := 0 } ∧
    remove_guest demoS2 "owner.near" "PKG" = .ok demoRemoved ∧
    demoRemoved.tokens_per_owner "alice.near" = none ∧
    demoRemoved.guests "PKG" = none ∧
    demoRemoved.tokens_by_id = demoS2.tokens_by_id ∧
    demoRemoved.total_supply = demoS2.total_supply :=
  have A := C9_remove_guest_frame demoS2 demoRemoved "owner.near" "PKG"
    { account_id := "alice.near", mints := 1, balance := 0 } rfl rfl
  ⟨rfl, rfl, A.1, A.2.1, A.2.2.2.2.1, A.2.2.2.2.2.2.1⟩

/-- C10: a guest whose `mints` equals the quota is locked out of listing
and unlisting: `nft_add_sale_guest` (when its deposit guard passes) and
`nft_remove_sale_guest` abort with the mint-limit error even though they
pass `new_mints = 0`; conversely a successful `admin_guest 0` returns the
guest with `mints` unchanged. -/
theorem C10_quota_locks_sales :
    (∀ s pk g tid mid, s.guests pk = some g → g.mints = GUEST_MINT_LIMIT →
      nft_remove_sale_guest s pk tid mid =
        .error "Exceeded guest mint limit") ∧
    (∀ s pk g tid price mid dep, s.guests pk = some g →
      g.mints = GUEST_MINT_LIMIT → dep ≤ MAX_MARKET_DEPOSIT →
      nft_add_sale_guest s pk tid price mid dep =
        .error "Exceeded guest mint limit") ∧
    (∀ s s1 pk g g1, s.guests pk = some g →
      admin_guest s pk 0 = .ok (g1, s1) →
      g1 = g ∧ s1.guests pk = some g) := by
  have hadm : ∀ (s : Contract) (pk : PublicKey) (g : Guest),
      s.guests pk = some g → g.mints = GUEST_MINT_LIMIT →
      admin_guest s pk 0 = .error "Exceeded guest mint limit" := by
    intro s pk g hg hm
    unfold admin_guest
    rw [hg]
    exact if_neg (by rw [hm]; exact lt_irrefl _)
  refine ⟨?_, ?_, ?_⟩
  · intro s pk g tid mid hg hm
    simp only [nft_remove_sale_guest, hadm s pk g hg hm]
  · intro s pk g tid price mid dep hg hm hdep
    simp only [nft_add_sale_guest, if_pos hdep, hadm s pk g hg hm]
  · intro s s1 pk g g1 hg ha
    obtain ⟨g0, hg0, hm0, hg1, hs1⟩ := admin_guest_ok ha
    rw [hg] at hg0
    obtain rfl := Option.some.inj hg0
    subst hg1
    subst hs1
    constructor
    · rfl
    · show upd s.guests pk (some { g with mints := g.mints + 0 }) pk = some g
      rw [upd_same]
      rfl

/-- C10 witness: the quota-exhausted guest of `demoS4` cannot list or
unlist. -/
theorem C10_quota_locks_sales_witness :
    demoS4.guests "PKG" =
      some { account_id := "alice.near", mints := 3, balance := 0 } ∧
    nft_remove_sale_guest demoS4 "PKG" "tok1" "market.near" =
      .error "Exceeded guest mint limit" ∧
    nft_add_sale_guest demoS4 "PKG" "tok1" 5 "market.near" 10 =
      .error "Exceeded guest mint limit" :=
  ⟨rfl,
    C10_quota_locks_sales.1 demoS4 "PKG"
      { account_id := "alice.near", mints := 3, balance := 0 }
      "tok1" "market.near" rfl rfl,
    C10_quota_locks_sales.2.1 demoS4 "PKG"
      { account_id := "alice.near", mints := 3, balance := 0 }
      "tok1" 5 "market.near" 10 rfl rfl (by decide)⟩
